import Mathlib

/-!
# Verification of the basler-webhooks billing core

A shallow embedding, in Lean 4, of the decision and pricing logic of the
basler-webhooks repository:

* the billing-flow selection of the YCBM → QuickBooks webhook handler
  (`src/unnamed/part_008`, `src/api/ycbm-qb.js`);
* the PARTIAL_PAYMENT invoice computation (`handlePartialPayment` in
  `src/unnamed/part_008`, v2.1.0 variant);
* the usage-billing helpers of `src/lib/product-map.js`
  (`calculateBillable`, `mapProductToQuickBooks`);
* the WooCommerce paylater detection (`detectPaylater` in
  `src/lib/parse-order.js`, v1.2.0 variant);
* the Stripe lookup result shape (`findPaymentByEmail` in
  `src/lib/stripe-lookup.js`);
* the YCBM payload field parsers (`parseAdditionalMembers`, `parsePrice`
  in `src/lib/parse-order.js`).

Amounts are modelled exactly: Stripe minor units (cents) as `Int`,
QuickBooks dollar amounts as `Rat`.  JavaScript `Math.round` is modelled
as round-half-up (`Int.floor (x + 1/2)`), which agrees with `Math.round`
on every real input.
-/

namespace BaslerWebhooks

/-! ## Billing flow selection (src/unnamed/part_008 lines 632-642,
     src/api/ycbm-qb.js lines 80-90) -/

/-- The four booking billing flows of the YCBM handler. -/
inductive BillingFlow where
  | paylater
  | partialPayment
  | paidWithDiscount
  | simplePaid
  deriving DecidableEq, Repr

/-- Flow selection, translated from the if/else chain of the handler:
`!stripePayment.found` → PAYLATER, else `additionalTeamMembers > 0` →
PARTIAL_PAYMENT, else `stripePayment.discountAmount > 0` →
PAID_WITH_DISCOUNT, else SIMPLE_PAID.  `discountAmount` is the raw
Stripe amount in cents. -/
def selectFlow (found : Bool) (additionalTeamMembers : Nat)
    (discountAmount : Int) : BillingFlow :=
  if !found then .paylater
  else if additionalTeamMembers > 0 then .partialPayment
  else if discountAmount > 0 then .paidWithDiscount
  else .simplePaid

/-! ## String primitives

JavaScript strings are modelled as `List Char`, so that every string
operation computes by kernel reduction.  String literals enter the
embedding through `String.data`. -/

/-- A JavaScript string. -/
abbrev JSString := List Char

/-- JS `String.prototype.toLowerCase` (ASCII fragment). -/
def toLowerStr (s : JSString) : JSString := s.map Char.toLower

/-- JS `String.prototype.trim`: strip leading and trailing whitespace. -/
def trimStr (s : JSString) : JSString :=
  ((s.dropWhile (·.isWhitespace)).reverse.dropWhile (·.isWhitespace)).reverse

/-- JS `String.prototype.includes`: substring test. -/
def containsStr (hay needle : JSString) : Bool :=
  (List.range (hay.length + 1)).any fun i => needle.isPrefixOf (hay.drop i)

/-! ## Usage billing: calculateBillable (src/lib/product-map.js
     lines 287-311) -/

/-- Result of `calculateBillable`: the billable count (the source also
returns a human-readable `calculation` string, which carries no
decision content and is omitted). -/
structure BillableResult where
  billable : Int
  deriving DecidableEq, Repr

/-- `calculateBillable({total, optionValue, createdInBillingMonth,
isInterview})`, translated from src/lib/product-map.js: interview links
always bill `total`; links created in the billing month bill
`max(0, total - optionValue)`; older links bill `total`. -/
def calculateBillable (total optionValue : Int)
    (createdInBillingMonth isInterview : Bool) : BillableResult :=
  if isInterview then
    { billable := total }
  else if createdInBillingMonth then
    { billable := max 0 (total - optionValue) }
  else
    { billable := total }

/-! ## Stripe payment data and the PARTIAL_PAYMENT computation
     (src/unnamed/part_008 lines 874-1019, v2.1.0 handlePartialPayment) -/

/-- Discount type reported by the Stripe lookup (`'fixed'` / `'percent'`;
`none` models the JS `null`). -/
inductive DiscountType where
  | fixed
  | percent
  deriving DecidableEq, Repr

/-- The fields of the Stripe lookup result consumed by the flow handlers.
Monetary fields are Stripe-native minor units (integer cents).
`percentOff = 0` models the JS `null`/absent value (both are falsy in the
guard `stripePayment.percentOff`). -/
structure StripePayment where
  found : Bool
  amountPaid : Int
  subtotal : Int
  discountAmount : Int
  discountType : Option DiscountType
  percentOff : Rat
  deriving Repr

/-- `centsToDollars` from src/lib/stripe-lookup.js: exact division by 100. -/
def centsToDollars (cents : Int) : Rat := (cents : Rat) / 100

/-- JavaScript `Math.round`: round half toward +∞, i.e. `⌊x + 1/2⌋`. -/
def jsRound (x : Rat) : Int := Int.floor (x + 1/2)

/-- `Math.round(x * 100) / 100`: round to currency-minor-unit (cent)
precision, half up. -/
def roundToCents (x : Rat) : Rat := (jsRound (x * 100) : Rat) / 100

/-- Which product/adjustment a QuickBooks invoice line carries.  The
source distinguishes the four lines by `ItemRef` and `Description`
("Building Strong Teams", "Additional Team Members (n)",
"Discount (code)", "Discount on extras (p% off)"). -/
inductive LineTag where
  | bst
  | extras
  | discountBase
  | discountExtras
  deriving DecidableEq, Repr

/-- One invoice line: `{Amount, Qty, UnitPrice}` plus its tag. -/
structure InvoiceLine where
  tag : LineTag
  amount : Rat
  qty : Nat
  unitPrice : Rat
  deriving DecidableEq, Repr

/-- The extras total `booking.additionalTeamMembers * addPrice`. -/
def extrasTotalOf (extras : Nat) (addPrice : Rat) : Rat :=
  (extras : Rat) * addPrice

/-- The extras discount of `handlePartialPayment`: when the Stripe
discount is percentage-typed with a truthy `percentOff`,
`Math.round(extrasTotal * (percentOff/100) * 100) / 100`; otherwise 0. -/
def extrasDiscountOf (extras : Nat) (p : StripePayment) (addPrice : Rat) : Rat :=
  if p.discountType = some .percent ∧ p.percentOff ≠ 0 then
    roundToCents (extrasTotalOf extras addPrice * (p.percentOff / 100))
  else 0

/-- The outcome of `handlePartialPayment` (src/unnamed/part_008
lines 874-1019): the invoice line items, the engine-computed invoice
total (`expectedTotal`), the payment applied, the balance due, and
whether the invoice is sent (`balanceDue > 0`). -/
structure PartialPaymentOutcome where
  invoiceLines : List InvoiceLine
  invoiceTotal : Rat
  paymentAmount : Rat
  balanceDue : Rat
  invoiceSendAttempted : Bool
  deriving Repr

/-- `handlePartialPayment`, translated from src/unnamed/part_008
(v2.1.0): base line at Stripe pre-discount subtotal, extras line at
`extras × addPrice`, a negative base-discount line when
`discountAmount > 0`, a negative extras-discount line when the rounded
percentage discount on extras is positive; `expectedTotal = subtotal +
extrasTotal - discountAmount - extrasDiscount`;
`balanceDue = expectedTotal - amountPaid`. -/
def handlePartialPayment (extras : Nat) (p : StripePayment)
    (addPrice : Rat) : PartialPaymentOutcome :=
  let subtotal := centsToDollars p.subtotal
  let discountAmount := centsToDollars p.discountAmount
  let amountPaid := centsToDollars p.amountPaid
  let extrasTotal := extrasTotalOf extras addPrice
  let extrasDiscount := extrasDiscountOf extras p addPrice
  let invoiceLines :=
    [InvoiceLine.mk .bst subtotal 1 subtotal]
    ++ (if extras > 0 then
          [InvoiceLine.mk .extras extrasTotal extras addPrice] else [])
    ++ (if discountAmount > 0 then
          [InvoiceLine.mk .discountBase (-discountAmount) 1 (-discountAmount)]
        else [])
    ++ (if extrasDiscount > 0 then
          [InvoiceLine.mk .discountExtras (-extrasDiscount) 1 (-extrasDiscount)]
        else [])
  let expectedTotal := subtotal + extrasTotal - discountAmount - extrasDiscount
  let balanceDue := expectedTotal - amountPaid
  { invoiceLines := invoiceLines
    invoiceTotal := expectedTotal
    paymentAmount := amountPaid
    balanceDue := balanceDue
    invoiceSendAttempted := balanceDue > 0 }

/-- The invoice carries an extras-discount line. -/
def hasExtrasDiscountLine (o : PartialPaymentOutcome) : Bool :=
  o.invoiceLines.any (fun l => l.tag == .discountExtras)

/-! ### C1: flow selection table -/

/-- C1.  Billing flow selection is a pure function of
(hasPayment, extrasCount > 0, discountAmount > 0), evaluated top-to-bottom
with first match winning: no payment → PAYLATER; payment and extras →
PARTIAL_PAYMENT regardless of discount; payment, no extras, discount →
PAID_WITH_DISCOUNT; otherwise SIMPLE_PAID.  Determinism (same inputs,
same flow) is immediate since `selectFlow` is a function. -/
theorem C1_flow_selection_table :
    (∀ extras d, selectFlow false extras d = .paylater) ∧
    (∀ extras d, 0 < extras → selectFlow true extras d = .partialPayment) ∧
    (∀ d, 0 < d → selectFlow true 0 d = .paidWithDiscount) ∧
    (∀ d, ¬ 0 < d → selectFlow true 0 d = .simplePaid) := by
  refine ⟨fun extras d => rfl, fun extras d h => ?_, fun d h => ?_, fun d h => ?_⟩
  · simp [selectFlow, h]
  · simp [selectFlow, h]
  · simp [selectFlow, h]

/-- Witness for C1: concrete rows of the transition table. -/
theorem C1_flow_selection_table_witness :
    selectFlow false 2 175 = .paylater ∧
    selectFlow true 2 175 = .partialPayment ∧
    selectFlow true 0 175 = .paidWithDiscount ∧
    selectFlow true 0 0 = .simplePaid := by
  refine ⟨C1_flow_selection_table.1 2 175,
          C1_flow_selection_table.2.1 2 175 (by decide),
          C1_flow_selection_table.2.2.1 175 (by decide),
          C1_flow_selection_table.2.2.2 0 (by decide)⟩

/-! ### C2, C3: the PARTIAL_PAYMENT invoice computation -/

/-- Round-half-up never overshoots an integer bound: if `y ≤ m` with `m`
an integer then `⌊y + 1/2⌋ ≤ m`. -/
theorem jsRound_le_intCast {y : Rat} {m : Int} (h : y ≤ (m : Rat)) :
    jsRound y ≤ m := by
  have hfloor : Int.floor (y + 1/2) ≤ Int.floor ((m : Rat) + 1/2) :=
    Int.floor_le_floor (by linarith)
  have hm : Int.floor ((m : Rat) + 1/2) = m := by
    rw [add_comm, Int.floor_add_int]
    norm_num
  rw [jsRound]
  exact hm ▸ hfloor

/-- The extras discount never exceeds the extras total, provided the
percentage is between 0 and 100 and the extras unit price is a
nonnegative whole-cent amount `k/100`. -/
theorem extrasDiscount_le_extrasTotal (extras : Nat) (p : StripePayment)
    {k : Int} (hk : 0 ≤ k) (hp100 : p.percentOff ≤ 100) :
    extrasDiscountOf extras p ((k : Rat) / 100)
      ≤ extrasTotalOf extras ((k : Rat) / 100) := by
  have hextras : (0 : Rat) ≤ extrasTotalOf extras ((k : Rat) / 100) := by
    rw [extrasTotalOf]
    positivity
  rw [extrasDiscountOf]
  split
  · set m : Int := (extras : Int) * k with hm
    have hm0 : (0 : Int) ≤ m := by positivity
    have htot : extrasTotalOf extras ((k : Rat) / 100) = (m : Rat) / 100 := by
      rw [extrasTotalOf, hm]
      push_cast
      ring
    have harg : extrasTotalOf extras ((k : Rat) / 100) * (p.percentOff / 100) * 100
        = (m : Rat) * p.percentOff / 100 := by
      rw [htot]
      ring
    have hle : (m : Rat) * p.percentOff / 100 ≤ (m : Rat) := by
      have h1 : (m : Rat) * p.percentOff ≤ (m : Rat) * 100 := by
        have : (0 : Rat) ≤ (m : Rat) := by exact_mod_cast hm0
        nlinarith
      linarith
    have hround : jsRound (extrasTotalOf extras ((k : Rat) / 100)
        * (p.percentOff / 100) * 100) ≤ m := by
      apply jsRound_le_intCast
      rw [harg]
      exact hle
    rw [roundToCents]
    have hcast : (jsRound (extrasTotalOf extras ((k : Rat) / 100) * (p.percentOff / 100) * 100) : Rat)
        ≤ (m : Rat) := by exact_mod_cast hround
    linarith
  · exact hextras

/-- A Stripe payment whose amount exceeds the pre-discount subtotal
(e.g. a checkout session where tax made `amount_total` larger than
`amount_subtotal`): $2000.00 paid against a $1000.00 subtotal. -/
def overpaidPayment : StripePayment :=
  { found := true, amountPaid := 200000, subtotal := 100000
    discountAmount := 0, discountType := none, percentOff := 0 }

/-- Counterexample to C2 as stated: a PARTIAL_PAYMENT booking (payment
found, 1 extra at $99) whose balance due is negative, because the
payment amount exceeds the engine-computed invoice total. -/
theorem C2_balance_counterexample :
    (handlePartialPayment 1 overpaidPayment 99).balanceDue < 0 := by
  norm_num [handlePartialPayment, overpaidPayment, centsToDollars,
    extrasTotalOf, extrasDiscountOf]

/-- C2 (amended).  For every PARTIAL_PAYMENT booking the engine-computed
invoice total equals `subtotal + extrasTotal - discountAmount -
extrasDiscount` and the reported balance due equals that invoice total
minus the payment amount applied, penny-exactly; the balance due is
nonnegative whenever the payment does not exceed the discounted base
(`amountPaid ≤ subtotal - discountAmount`), the percent-off is at most
100, and the extras unit price is a nonnegative whole-cent amount. -/
theorem C2_partial_payment_totals (extras : Nat) (p : StripePayment)
    (addPrice : Rat) (k : Int) (hk : 0 ≤ k)
    (haddPrice : addPrice = (k : Rat) / 100)
    (hpay : p.amountPaid ≤ p.subtotal - p.discountAmount)
    (hp100 : p.percentOff ≤ 100) :
    (handlePartialPayment extras p addPrice).invoiceTotal
        = centsToDollars p.subtotal + extrasTotalOf extras addPrice
          - centsToDollars p.discountAmount - extrasDiscountOf extras p addPrice
    ∧ (handlePartialPayment extras p addPrice).invoiceTotal
        - (handlePartialPayment extras p addPrice).paymentAmount
        = (handlePartialPayment extras p addPrice).balanceDue
    ∧ 0 ≤ (handlePartialPayment extras p addPrice).balanceDue := by
  refine ⟨rfl, rfl, ?_⟩
  subst haddPrice
  have hdisc := extrasDiscount_le_extrasTotal extras p hk hp100
  have hpayQ : (p.amountPaid : Rat) ≤ (p.subtotal : Rat) - (p.discountAmount : Rat) := by
    exact_mod_cast hpay
  show (0 : Rat) ≤ centsToDollars p.subtotal + extrasTotalOf extras ((k : Rat) / 100)
      - centsToDollars p.discountAmount - extrasDiscountOf extras p ((k : Rat) / 100)
      - centsToDollars p.amountPaid
  rw [centsToDollars, centsToDollars, centsToDollars]
  linarith

/-- The spec's §8 end-to-end example payment: Stripe subtotal $1750.00,
10% coupon ($175.00 off), $1575.00 paid. -/
def examplePayment : StripePayment :=
  { found := true, amountPaid := 157500, subtotal := 175000
    discountAmount := 17500, discountType := some .percent, percentOff := 10 }

/-- Witness for C2 at the spec's §8 end-to-end example: 2 extras at $99,
Stripe subtotal $1750.00, 10% coupon ($175.00 off), $1575.00 paid →
invoice total $1753.20, payment $1575.00, balance due $178.20 ≥ 0. -/
theorem C2_partial_payment_totals_witness :
    (handlePartialPayment 2 examplePayment 99).invoiceTotal = 17532 / 10
    ∧ 0 ≤ (handlePartialPayment 2 examplePayment 99).balanceDue := by
  have h := C2_partial_payment_totals 2 examplePayment
    99 9900 (by norm_num) (by norm_num) (by norm_num [examplePayment])
    (by norm_num [examplePayment])
  refine ⟨h.1.trans ?_, h.2.2⟩
  norm_num [centsToDollars, extrasTotalOf, extrasDiscountOf, roundToCents,
    jsRound, examplePayment]

/-- The invoice of `handlePartialPayment` carries an extras-discount line
exactly when the computed (rounded) extras discount is positive. -/
theorem hasExtrasDiscountLine_iff (extras : Nat) (p : StripePayment)
    (addPrice : Rat) :
    hasExtrasDiscountLine (handlePartialPayment extras p addPrice) = true
      ↔ 0 < extrasDiscountOf extras p addPrice := by
  rw [hasExtrasDiscountLine, handlePartialPayment]
  simp only [List.any_append, List.any_cons, List.any_nil]
  split <;> split <;> split <;> simp_all

/-- A percentage-typed Stripe discount of 0.1% (Stripe `percent_off`
may be fractional) on one $1.00 extra: the rounded extras discount is
`round(0.001 · 100)/100 = 0`. -/
def tinyPercentPayment : StripePayment :=
  { found := true, amountPaid := 99900, subtotal := 100000
    discountAmount := 100, discountType := some .percent
    percentOff := 1 / 10 }

/-- Counterexample to C3 as stated: the matched payment's discount is
percentage-typed (0.1% off), yet the PARTIAL_PAYMENT invoice for one
$1.00 extra carries no extras-discount line, since the amount rounds to
zero cents. -/
theorem C3_extras_discount_counterexample :
    tinyPercentPayment.discountType = some .percent
    ∧ tinyPercentPayment.percentOff ≠ 0
    ∧ hasExtrasDiscountLine (handlePartialPayment 1 tinyPercentPayment 1) = false := by
  refine ⟨rfl, by norm_num [tinyPercentPayment], ?_⟩
  have h : ¬ 0 < extrasDiscountOf 1 tinyPercentPayment 1 := by
    norm_num [extrasDiscountOf, tinyPercentPayment, extrasTotalOf,
      roundToCents, jsRound]
  cases hline : hasExtrasDiscountLine (handlePartialPayment 1 tinyPercentPayment 1)
  · rfl
  · exact absurd ((hasExtrasDiscountLine_iff 1 tinyPercentPayment 1).mp hline) h

/-- C3 (amended).  In the PARTIAL_PAYMENT flow an extras-discount line is
produced iff the matched discount is percentage-typed with a truthy
`percentOff` AND the amount `round(extrasTotal × percentOff/100)`,
rounded half-up to cent precision, is positive; when produced, the
line's amount is exactly the negation of that rounded value; a
fixed-amount discount never produces an extras-discount line. -/
theorem C3_extras_discount_line (extras : Nat) (p : StripePayment)
    (addPrice : Rat) :
    (hasExtrasDiscountLine (handlePartialPayment extras p addPrice) = true
      ↔ (p.discountType = some .percent ∧ p.percentOff ≠ 0
          ∧ 0 < roundToCents (extrasTotalOf extras addPrice * (p.percentOff / 100))))
    ∧ (∀ l ∈ (handlePartialPayment extras p addPrice).invoiceLines,
        l.tag = .discountExtras →
          l.amount = -(roundToCents (extrasTotalOf extras addPrice * (p.percentOff / 100))))
    ∧ (p.discountType = some .fixed →
        hasExtrasDiscountLine (handlePartialPayment extras p addPrice) = false) := by
  refine ⟨?_, ?_, ?_⟩
  · rw [hasExtrasDiscountLine_iff, extrasDiscountOf]
    split
    · rename_i hguard
      simp [hguard]
    · rename_i hguard
      simp only [lt_self_iff_false, false_iff]
      intro hc
      exact hguard ⟨hc.1, hc.2.1⟩
  · intro l hl htag
    rw [handlePartialPayment] at hl
    simp only [List.mem_append, List.mem_singleton] at hl
    rcases hl with ((h | h) | h) | h
    · subst h
      simp at htag
    · rcases (by split at h <;> simp_all :
        l = InvoiceLine.mk .extras (extrasTotalOf extras addPrice) extras addPrice) with rfl
      simp at htag
    · rcases (by split at h <;> simp_all :
        l = InvoiceLine.mk .discountBase (-(centsToDollars p.discountAmount)) 1
              (-(centsToDollars p.discountAmount))) with rfl
      simp at htag
    · have hl' : l = InvoiceLine.mk .discountExtras
          (-(extrasDiscountOf extras p addPrice)) 1
          (-(extrasDiscountOf extras p addPrice))
        ∧ 0 < extrasDiscountOf extras p addPrice := by
        split at h <;> simp_all
      rcases hl' with ⟨rfl, hpos⟩
      show -(extrasDiscountOf extras p addPrice) = _
      rw [extrasDiscountOf] at hpos ⊢
      split at hpos
      · rename_i hguard
        rw [if_pos hguard]
      · exact absurd hpos (by norm_num)
  · intro hfixed
    cases hline : hasExtrasDiscountLine (handlePartialPayment extras p addPrice)
    · rfl
    · have := (hasExtrasDiscountLine_iff extras p addPrice).mp hline
      rw [extrasDiscountOf] at this
      split at this
      · rename_i hguard
        rw [hfixed] at hguard
        exact absurd hguard.1 (by simp)
      · exact absurd this (by norm_num)

/-- Witness for C3 at the spec's §8 example: with a 10% percentage
discount, 2 extras at $99 produce an extras-discount line ($19.80). -/
theorem C3_extras_discount_line_witness :
    hasExtrasDiscountLine (handlePartialPayment 2 examplePayment 99) = true :=
  (C3_extras_discount_line 2 examplePayment 99).1.mpr
    ⟨rfl, by norm_num [examplePayment],
     by norm_num [examplePayment, extrasTotalOf, roundToCents, jsRound]⟩

/-! ### C4: billable quantity -/

/-- C4.  For every usage record, `calculateBillable` returns:
`max(0, total - optionValue)` when the link was created within the
billing period; `total` when created before it; and `total`
unconditionally (allocation ignored) for the Interview variant. -/
theorem C4_calculate_billable (total optionValue : Int) :
    (∀ c, (calculateBillable total optionValue c true).billable = total) ∧
    (calculateBillable total optionValue true false).billable
      = max 0 (total - optionValue) ∧
    (calculateBillable total optionValue false false).billable = total := by
  refine ⟨fun c => ?_, rfl, rfl⟩
  cases c <;> rfl

/-- Witness for C4 at the spec's own example values: usage 50, allocation
10, created in period → 40; created before → 50; interview → 50. -/
theorem C4_calculate_billable_witness :
    (calculateBillable 50 10 true false).billable = 40 ∧
    (calculateBillable 50 10 false false).billable = 50 ∧
    (calculateBillable 50 10 true true).billable = 50 := by
  refine ⟨(C4_calculate_billable 50 10).2.1.trans (by decide),
          (C4_calculate_billable 50 10).2.2, ?_⟩
  exact (C4_calculate_billable 50 10).1 true

/-! ## WooCommerce paylater detection (detectPaylater in
     src/lib/parse-order.js, v1.2.0 variant, lines 218-240) -/

/-- One WooCommerce `coupon_lines` entry.  `discount` is the value of the
JS `parseFloat(coupon.discount)`: `none` models an absent or unparseable
field (NaN), which `|| 0` maps to 0. -/
structure CouponLine where
  code : Option JSString
  discount : Option Rat
  deriving Repr

/-- One WooCommerce `line_items` entry; `subtotal` as for
`CouponLine.discount`. -/
structure WooItem where
  subtotal : Option Rat
  deriving Repr

/-- The slice of the WooCommerce order payload read by `detectPaylater`.
`total` is `parseFloat(payload.total)`; `none` models NaN (for which
`=== 0` is false). -/
structure WooPayload where
  couponLines : List CouponLine
  total : Option Rat
  lineItems : List WooItem
  deriving Repr

/-- `(coupon.code || '').toLowerCase().trim()` equals one of the three
recognized deferred-payment codes. -/
def isPaylaterCode (code : Option JSString) : Bool :=
  let c := trimStr (toLowerStr (code.getD []))
  c == "paylater".data || c == "pay-later".data || c == "pay_later".data

/-- The line-items subtotal computed inside `detectPaylater`:
`Σ (parseFloat(item.subtotal) || 0)`. -/
def wooLineSubtotal (p : WooPayload) : Rat :=
  (p.lineItems.map fun i => i.subtotal.getD 0).sum

/-- `detectPaylater`, translated from src/lib/parse-order.js (v1.2.0):
a recognized paylater coupon code, OR (`parseFloat(payload.total) === 0`
AND some coupon whose discount is positive and covers at least 99% of
the positive line-items subtotal).  The JS literal `0.99` is modelled as
the exact rational 99/100. -/
def detectPaylater (p : WooPayload) : Bool :=
  let hasPaylaterCoupon := p.couponLines.any fun c => isPaylaterCode c.code
  let totalIsZero := p.total == some 0
  let hasFullDiscount := p.couponLines.any fun c =>
    let discount := c.discount.getD 0
    let lineSubtotal := wooLineSubtotal p
    decide (0 < discount) && decide (0 < lineSubtotal)
      && decide (lineSubtotal * (99 / 100) ≤ discount)
  hasPaylaterCoupon || (totalIsZero && hasFullDiscount)

/-- The paylater signal exactly as the claim states it: a recognized
deferred-payment coupon code is present OR the coupon discount amount
covers at least 99% of the order subtotal. -/
def paylaterSpecSignal (p : WooPayload) : Prop :=
  (∃ c ∈ p.couponLines, isPaylaterCode c.code = true)
  ∨ (∃ c ∈ p.couponLines, 0 < c.discount.getD 0 ∧ 0 < wooLineSubtotal p
      ∧ wooLineSubtotal p * (99 / 100) ≤ c.discount.getD 0)

/-- An order with a 99%-covering coupon but a nonzero remaining total:
$99 off a $100 subtotal, $1 still paid. -/
def nearFullDiscountOrder : WooPayload :=
  { couponLines := [{ code := some "bigdeal".data, discount := some 99 }]
    total := some 1
    lineItems := [{ subtotal := some 100 }] }

/-- Counterexample to C5 as stated: the discount covers ≥99% of the
subtotal, yet `detectPaylater` returns false, because the second signal
also requires `parseFloat(payload.total) === 0`. -/
theorem C5_paylater_counterexample :
    detectPaylater nearFullDiscountOrder = false
    ∧ paylaterSpecSignal nearFullDiscountOrder := by
  constructor
  · simp only [detectPaylater, nearFullDiscountOrder, isPaylaterCode,
      toLowerStr, trimStr, wooLineSubtotal, List.any_cons, List.any_nil]
    norm_num
    decide
  · refine Or.inr ⟨{ code := some "bigdeal".data, discount := some 99 }, by
      simp [nearFullDiscountOrder], ?_, ?_, ?_⟩
    · norm_num
    · norm_num [wooLineSubtotal, nearFullDiscountOrder]
    · norm_num [wooLineSubtotal, nearFullDiscountOrder]

/-- C5 (amended).  `detectPaylater` returns true iff a recognized
deferred-payment coupon code (paylater / pay-later / pay_later,
case-insensitive) is present, OR the parsed order total is exactly 0 AND
some coupon's discount is positive and covers at least 99% of the
positive line-items subtotal.  Both signals are evaluated; the coupon
code signal wins first. -/
theorem C5_paylater_detection (p : WooPayload) :
    detectPaylater p = true ↔
      ((∃ c ∈ p.couponLines, isPaylaterCode c.code = true)
       ∨ (p.total = some 0
          ∧ ∃ c ∈ p.couponLines, 0 < c.discount.getD 0 ∧ 0 < wooLineSubtotal p
              ∧ wooLineSubtotal p * (99 / 100) ≤ c.discount.getD 0)) := by
  simp only [detectPaylater, Bool.or_eq_true, Bool.and_eq_true,
    List.any_eq_true, decide_eq_true_eq, beq_iff_eq]
  constructor
  · rintro (⟨c, hc, h⟩ | ⟨ht, c, hc, hh⟩)
    · exact Or.inl ⟨c, hc, h⟩
    · exact Or.inr ⟨ht, c, hc, hh.1.1, hh.1.2, hh.2⟩
  · rintro (⟨c, hc, h⟩ | ⟨ht, c, hc, h1, h2, h3⟩)
    · exact Or.inl ⟨c, hc, h⟩
    · exact Or.inr ⟨ht, c, hc, ⟨h1, h2⟩, h3⟩

/-- Witness for C5: a genuine paylater-coupon order is detected, and the
counterexample order is not. -/
theorem C5_paylater_detection_witness :
    detectPaylater
      { couponLines := [{ code := some " PayLater ".data, discount := some 0 }]
        total := some 1750
        lineItems := [{ subtotal := some 1750 }] } = true :=
  (C5_paylater_detection _).mpr
    (Or.inl ⟨{ code := some " PayLater ".data, discount := some 0 },
      by simp, by decide⟩)

/-! ## Product/catalog mapping (mapProductToQuickBooks in
     src/lib/product-map.js, lines 54-105) -/

/-- How a catalog entry matched. -/
inductive MatchedBy where
  | sku
  | keyword
  deriving DecidableEq, Repr

/-- One `PRODUCT_MAP` entry: declaration key, keyword list, SKU, ledger
item id (from the environment, possibly unset), display name, standard
price. -/
structure CatalogEntry where
  key : JSString
  keywords : List JSString
  sku : Option JSString
  qbItemId : Option JSString
  qbItemName : Option JSString
  defaultPrice : Rat
  deriving DecidableEq, Repr

/-- The result object of `mapProductToQuickBooks`. -/
structure QBMapping where
  qbItemId : Option JSString
  qbItemName : Option JSString
  defaultPrice : Rat
  matched : Bool
  matchedBy : Option MatchedBy
  matchedKey : Option JSString
  deriving DecidableEq, Repr

/-- `(s || '').toLowerCase().trim()`. -/
def loweredKey (s : Option JSString) : JSString :=
  trimStr (toLowerStr (s.getD []))

/-- The SKU test of the first loop:
`skuLower && product.sku && product.sku.toLowerCase() === skuLower`.
(Empty strings are falsy in JS.) -/
def skuMatches (skuLower : JSString) (e : CatalogEntry) : Bool :=
  !skuLower.isEmpty &&
    (match e.sku with
     | some s => !s.isEmpty && (toLowerStr s == skuLower)
     | none => false)

/-- The keyword test of the second loop:
`product.keywords.some(keyword => nameLower.includes(keyword.toLowerCase()))`. -/
def keywordMatches (nameLower : JSString) (e : CatalogEntry) : Bool :=
  e.keywords.any fun kw => containsStr nameLower (toLowerStr kw)

/-- The result returned on an SKU match. -/
def skuMapping (e : CatalogEntry) : QBMapping :=
  { qbItemId := e.qbItemId, qbItemName := e.qbItemName
    defaultPrice := e.defaultPrice, matched := true
    matchedBy := some .sku, matchedKey := some e.key }

/-- The result returned on a keyword match. -/
def keywordMapping (e : CatalogEntry) : QBMapping :=
  { qbItemId := e.qbItemId, qbItemName := e.qbItemName
    defaultPrice := e.defaultPrice, matched := true
    matchedBy := some .keyword, matchedKey := some e.key }

/-- The fallback result when nothing matches: no item id, the raw
product name as label, zero standard price. -/
def unmatchedMapping (productName : Option JSString) : QBMapping :=
  { qbItemId := none, qbItemName := productName, defaultPrice := 0
    matched := false, matchedBy := none, matchedKey := none }

/-- `mapProductToQuickBooks(productName, sku)`, translated from
src/lib/product-map.js: first loop — first entry whose SKU equals the
given SKU case-insensitively; second loop — first entry with a keyword
occurring case-insensitively in the product name; otherwise the
unmatched fallback. -/
def mapProductToQuickBooks (table : List CatalogEntry)
    (productName : Option JSString) (sku : Option JSString) : QBMapping :=
  let nameLower := loweredKey productName
  let skuLower := loweredKey sku
  match table.find? (skuMatches skuLower) with
  | some e => skuMapping e
  | none =>
    match table.find? (keywordMatches nameLower) with
    | some e => keywordMapping e
    | none => unmatchedMapping productName

/-- The concrete `PRODUCT_MAP` of the source, parameterized by the two
environment-supplied item ids. -/
def productMap (bstId addId : Option JSString) : List CatalogEntry :=
  [{ key := "building-strong-teams".data
     keywords := ["building strong teams".data, "strong teams".data, "bst".data]
     sku := some "BST-001".data
     qbItemId := bstId
     qbItemName := some "Building Strong Teams".data
     defaultPrice := 1750 },
   { key := "additional-team-member".data
     keywords := ["additional team member".data, "extra member".data,
                  "add member".data, "additional member".data]
     sku := some "BST-ADD".data
     qbItemId := addId
     qbItemName := some "Strong Teams - Additional Team Member".data
     defaultPrice := 99 }]

/-- `find?` returns the first element satisfying the predicate: if no
element of the prefix satisfies it and `e` does, the search stops at
`e`. -/
theorem find?_first {α : Type} (p : α → Bool) (t₁ t₂ : List α) (e : α)
    (h₁ : ∀ x ∈ t₁, p x = false) (he : p e = true) :
    (t₁ ++ e :: t₂).find? p = some e := by
  induction t₁ with
  | nil => simp [List.find?_cons, he]
  | cons a t ih =>
    have ha : p a = false := h₁ a (List.mem_cons_self a t)
    simp only [List.cons_append, List.find?_cons, ha]
    exact ih fun x hx => h₁ x (List.mem_cons_of_mem a hx)

/-! ### C7: catalog matching precedence -/

/-- C7.  Catalog mapping checks SKUs against every entry first: if any
entry's SKU matches, the first such entry wins with `matchedBy = sku`,
regardless of keyword matches anywhere (so an SKU match takes precedence
over a keyword match).  If no SKU matches, the first entry (in
table-declaration order) with a keyword occurring in the product name
wins.  If nothing matches, the result is `matched = false` with zero
standard price and the raw product name as label. -/
theorem C7_catalog_precedence (table : List CatalogEntry)
    (productName sku : Option JSString) :
    (∀ t₁ t₂ e, table = t₁ ++ e :: t₂ →
      (∀ x ∈ t₁, skuMatches (loweredKey sku) x = false) →
      skuMatches (loweredKey sku) e = true →
      mapProductToQuickBooks table productName sku = skuMapping e)
    ∧ ((∀ x ∈ table, skuMatches (loweredKey sku) x = false) →
        ∀ t₁ t₂ e, table = t₁ ++ e :: t₂ →
          (∀ x ∈ t₁, keywordMatches (loweredKey productName) x = false) →
          keywordMatches (loweredKey productName) e = true →
          mapProductToQuickBooks table productName sku = keywordMapping e)
    ∧ ((∀ x ∈ table, skuMatches (loweredKey sku) x = false
          ∧ keywordMatches (loweredKey productName) x = false) →
        mapProductToQuickBooks table productName sku
          = unmatchedMapping productName) := by
  refine ⟨?_, ?_, ?_⟩
  · intro t₁ t₂ e htable h₁ he
    subst htable
    rw [mapProductToQuickBooks]
    rw [find?_first (skuMatches (loweredKey sku)) t₁ t₂ e h₁ he]
  · intro hsku t₁ t₂ e htable h₁ he
    subst htable
    rw [mapProductToQuickBooks]
    rw [List.find?_eq_none.mpr fun x hx => by simp [hsku x hx]]
    rw [find?_first (keywordMatches (loweredKey productName)) t₁ t₂ e h₁ he]
  · intro hnone
    rw [mapProductToQuickBooks]
    rw [List.find?_eq_none.mpr fun x hx => by simp [(hnone x hx).1]]
    rw [List.find?_eq_none.mpr fun x hx => by simp [(hnone x hx).2]]

/-- Witness for C7 on the concrete catalog: the SKU `bst-add` matches
the second entry case-insensitively even though the product name
"Building Strong Teams" keyword-matches the first entry — the SKU match
wins; and an unknown product falls back to `matched = false`, zero
price, raw name as label. -/
theorem C7_catalog_precedence_witness :
    mapProductToQuickBooks (productMap none none)
        (some "Building Strong Teams".data) (some "bst-add".data)
      = skuMapping
          { key := "additional-team-member".data
            keywords := ["additional team member".data, "extra member".data,
                         "add member".data, "additional member".data]
            sku := some "BST-ADD".data
            qbItemId := none
            qbItemName := some "Strong Teams - Additional Team Member".data
            defaultPrice := 99 }
    ∧ mapProductToQuickBooks (productMap none none)
        (some "Mystery Product".data) none
      = unmatchedMapping (some "Mystery Product".data) := by
  constructor
  · exact (C7_catalog_precedence (productMap none none)
      (some "Building Strong Teams".data) (some "bst-add".data)).1
      [{ key := "building-strong-teams".data
         keywords := ["building strong teams".data, "strong teams".data,
                      "bst".data]
         sku := some "BST-001".data
         qbItemId := none
         qbItemName := some "Building Strong Teams".data
         defaultPrice := 1750 }] [] _ rfl (by decide) (by decide)
  · exact (C7_catalog_precedence (productMap none none)
      (some "Mystery Product".data) none).2.2 (by decide)

/-! ## YCBM field parsers (parsePrice, parseAdditionalMembers in
     src/lib/parse-order.js, lines 609-648) -/

/-- The decimal digit character for `d` (callers keep `d < 10`). -/
def digitChar (d : Nat) : Char :=
  match d with
  | 0 => '0' | 1 => '1' | 2 => '2' | 3 => '3' | 4 => '4'
  | 5 => '5' | 6 => '6' | 7 => '7' | 8 => '8' | _ => '9'

/-- The numeric value of a decimal digit string. -/
def digitsVal (ds : List Char) : Nat :=
  ds.foldl (fun a c => 10 * a + (c.toNat - 48)) 0

/-- Read an optional leading sign: `(negative?, rest)`. -/
def readSign : List Char → Bool × List Char
  | '-' :: rest => (true, rest)
  | '+' :: rest => (false, rest)
  | cs => (false, cs)

/-! ### IEEE-754 binary64 conversion

`parseInt` and `parseFloat` return JS numbers, i.e. IEEE-754 binary64
doubles: the exact mathematical value of the scanned literal is rounded
to 53 significant bits (round to nearest, ties to even) and saturates
to Infinity for magnitudes of `2^1024 - 2^970` and above (every real at
or above that threshold rounds to the supremum `2^1024`, hence to
Infinity; everything below rounds to a finite double of at most
`2^1024 - 2^971`). -/

/-- A JavaScript number as produced by the numeric parsers: NaN, a
signed infinity, or a finite value.  Every finite binary64 double is an
exact rational `m · 2^p` with `|m| < 2^53`, `-1074 ≤ p ≤ 971`, which is
how the conversion below produces it. -/
inductive JSNum where
  | nan
  | inf (pos : Bool)
  | val (q : Rat)
  deriving DecidableEq, Repr

/-- Fuelled bit length: `bitLenAux fuel n` is the number of binary
digits of `n`, correct whenever `n ≤ fuel` (each step halves `n`, so
`fuel = n` always suffices).  Structural recursion on the fuel keeps it
kernel-computable. -/
def bitLenAux : Nat → Nat → Nat
  | 0, _ => 0
  | fuel + 1, n => if n = 0 then 0 else bitLenAux fuel (n / 2) + 1

/-- The number of binary digits of `n` (0 for 0): `2^(bitLen n - 1) ≤ n
< 2^(bitLen n)` for positive `n`. -/
def bitLen (n : Nat) : Nat := bitLenAux n n

/-- `⌊log₂ (a/b)⌋` for positive naturals: the bit lengths bracket the
quotient within two adjacent binades, and one comparison
(`2^e0 ≤ a/b`, cleared of denominators) picks the right one. -/
def ratLog2 (a b : Nat) : Int :=
  let e0 : Int := (bitLen a : Int) - (bitLen b : Int)
  if b * 2 ^ e0.toNat ≤ a * 2 ^ (-e0).toNat then e0 else e0 - 1

/-- Round the nonnegative value `N · 10^E` to the nearest IEEE-754
binary64 double, ties to even.  `none` is overflow to Infinity, exactly
when the value reaches the threshold `2^1024 - 2^970`.  Otherwise the
result is the double's exact value `m' · 2^p`: `p` is the ulp exponent
(`e - 52` for the binade `e`, clamped at `-1074` in the subnormal
range, which also yields underflow to 0), and `m'` is `N·10^E / 2^p`
rounded to the nearest integer, ties to even — computed exactly via the
integer division `num / den` and its remainder. -/
def roundSciToDouble (N : Nat) (E : Int) : Option Rat :=
  let a := N * 10 ^ E.toNat
  let b := 10 ^ (-E).toNat
  if a = 0 then some 0
  else if (2 ^ 1024 - 2 ^ 970) * b ≤ a then none
  else
    let e := ratLog2 a b
    let p : Int := max (e - 52) (-1074)
    let num := a * 2 ^ (-p).toNat
    let den := b * 2 ^ p.toNat
    let m := num / den
    let m' := if den < 2 * (num % den) then m + 1
              else if 2 * (num % den) < den then m
              else m + m % 2
    some ((m' : Rat) * (2 : Rat) ^ p)

/-- JS `parseInt(s, 10)`: skip leading whitespace, optional sign, then
the longest prefix of decimal digits; no digits → NaN.  The
mathematical integer denoted by the digits is then converted to a
double, so values above `2^53` lose precision and huge digit strings
saturate to Infinity (`parseInt('9'.repeat(400)) === Infinity`). -/
def jsParseIntNum (s : JSString) : JSNum :=
  let cs := s.dropWhile (·.isWhitespace)
  let sr := readSign cs
  let ds := sr.2.takeWhile (·.isDigit)
  if ds.isEmpty then .nan
  else
    match roundSciToDouble (digitsVal ds) 0 with
    | none => .inf (!sr.1)
    | some v => .val ((if sr.1 then (-1 : Rat) else 1) * v)

/-- The decimal-digit representation of a natural number. -/
def natToChars (n : Nat) : List Char :=
  if _h : n < 10 then [digitChar n]
  else natToChars (n / 10) ++ [digitChar (n % 10)]
termination_by n
decreasing_by exact Nat.div_lt_self (by omega) (by norm_num)

/-- JS `String(n)` for an integer. -/
def intToChars (n : Int) : List Char :=
  if n < 0 then '-' :: natToChars n.natAbs else natToChars n.natAbs

/-- A JavaScript value as it may reach `parseAdditionalMembers`. -/
inductive JSVal where
  | null
  | undefined
  | str (s : JSString)
  | num (n : Int)
  deriving DecidableEq, Repr

/-- JS `String(value)`. -/
def jsValToString : JSVal → JSString
  | .null => "null".data
  | .undefined => "undefined".data
  | .str s => s
  | .num n => intToChars n

/-- `parseAdditionalMembers`, translated from src/lib/parse-order.js
lines 636-648: `null`/`undefined`/`''` → 0; otherwise
`parseInt(String(value), 10)`, then `isNaN(parsed) || parsed < 0` → 0,
else the parsed number is returned as-is.  Note `isNaN(Infinity)` and
`Infinity < 0` are both false, so a positive-Infinity parse is returned
unchanged. -/
def parseAdditionalMembers (v : JSVal) : JSNum :=
  if v = .null ∨ v = .undefined ∨ v = .str [] then .val 0
  else
    match jsParseIntNum (jsValToString v) with
    | .nan => .val 0
    | .inf b => if b then .inf true else .val 0
    | .val q => if q < 0 then .val 0 else .val q

/-! ### Digit-string lemmas -/

theorem digitChar_isDigit (d : Nat) : (digitChar d).isDigit = true :=
  match d with
  | 0 => rfl | 1 => rfl | 2 => rfl | 3 => rfl | 4 => rfl
  | 5 => rfl | 6 => rfl | 7 => rfl | 8 => rfl | _ + 9 => rfl

theorem digitChar_toNat (d : Nat) (h : d < 10) :
    (digitChar d).toNat - 48 = d := by
  interval_cases d <;> rfl

theorem digitChar_ne_dash (d : Nat) : digitChar d ≠ '-' :=
  match d with
  | 0 => by decide | 1 => by decide | 2 => by decide | 3 => by decide
  | 4 => by decide | 5 => by decide | 6 => by decide | 7 => by decide
  | 8 => by decide | _ + 9 => show '9' ≠ '-' by decide

theorem digitChar_ne_plus (d : Nat) : digitChar d ≠ '+' :=
  match d with
  | 0 => by decide | 1 => by decide | 2 => by decide | 3 => by decide
  | 4 => by decide | 5 => by decide | 6 => by decide | 7 => by decide
  | 8 => by decide | _ + 9 => show '9' ≠ '+' by decide

theorem digitChar_not_whitespace (d : Nat) :
    (digitChar d).isWhitespace = false :=
  match d with
  | 0 => rfl | 1 => rfl | 2 => rfl | 3 => rfl | 4 => rfl
  | 5 => rfl | 6 => rfl | 7 => rfl | 8 => rfl | _ + 9 => rfl

theorem digitsVal_append_singleton (ds : List Char) (c : Char) :
    digitsVal (ds ++ [c]) = 10 * digitsVal ds + (c.toNat - 48) := by
  rw [digitsVal, digitsVal, List.foldl_append]
  rfl

/-- Every character emitted by `natToChars` is one of the ten digit
characters. -/
theorem natToChars_mem (n : Nat) :
    ∀ c ∈ natToChars n, ∃ d, d < 10 ∧ c = digitChar d := by
  induction n using Nat.strong_induction_on with
  | _ n ih =>
    intro c hc
    rw [natToChars] at hc
    split at hc
    · rename_i h
      rw [List.mem_singleton] at hc
      exact ⟨n, h, hc⟩
    · rename_i h
      rw [List.mem_append, List.mem_singleton] at hc
      rcases hc with hc | hc
      · exact ih (n / 10) (Nat.div_lt_self (by omega) (by norm_num)) c hc
      · exact ⟨n % 10, Nat.mod_lt n (by norm_num), hc⟩

theorem natToChars_ne_nil (n : Nat) : natToChars n ≠ [] := by
  rw [natToChars]
  split
  · simp
  · simp

/-- Decoding inverts encoding: `digitsVal (natToChars n) = n`. -/
theorem digitsVal_natToChars (n : Nat) : digitsVal (natToChars n) = n := by
  induction n using Nat.strong_induction_on with
  | _ n ih =>
    rw [natToChars]
    split
    · rename_i h
      show digitsVal [digitChar n] = n
      rw [digitsVal, List.foldl_cons, List.foldl_nil]
      have := digitChar_toNat n h
      omega
    · rename_i h
      rw [digitsVal_append_singleton,
        ih (n / 10) (Nat.div_lt_self (by omega) (by norm_num)),
        digitChar_toNat (n % 10) (Nat.mod_lt n (by norm_num))]
      omega

/-- `takeWhile` takes an all-digit list whole. -/
theorem takeWhile_isDigit_of_all (l : List Char)
    (h : ∀ c ∈ l, c.isDigit = true) :
    l.takeWhile (·.isDigit) = l := by
  induction l with
  | nil => rfl
  | cons a t ih =>
    rw [List.takeWhile_cons]
    rw [h a (List.mem_cons_self a t)]
    rw [ih fun c hc => h c (List.mem_cons_of_mem a hc)]
    rfl

theorem bitLenAux_zero (fuel : Nat) : bitLenAux fuel 0 = 0 := by
  cases fuel <;> rfl

/-- With enough fuel (`n ≤ fuel`), `bitLenAux` brackets `n` between
consecutive powers of two. -/
theorem bitLenAux_spec : ∀ fuel n, n ≤ fuel → 0 < n →
    2 ^ (bitLenAux fuel n - 1) ≤ n ∧ n < 2 ^ bitLenAux fuel n := by
  intro fuel
  induction fuel with
  | zero => intro n h1 h2; omega
  | succ fuel ih =>
    intro n hle hpos
    rw [bitLenAux, if_neg (by omega)]
    by_cases hn1 : n = 1
    · subst hn1
      rw [show (1 : Nat) / 2 = 0 from rfl, bitLenAux_zero]
      norm_num
    · have hhalf_pos : 0 < n / 2 := by omega
      have hhalf_le : n / 2 ≤ fuel := by omega
      obtain ⟨hlo, hhi⟩ := ih (n / 2) hhalf_le hhalf_pos
      set L := bitLenAux fuel (n / 2) with hL
      have hL1 : 1 ≤ L := by
        by_contra h
        have h0 : L = 0 := by omega
        rw [h0, pow_zero] at hhi
        omega
      have h2L : 2 ^ L = 2 * 2 ^ (L - 1) := by
        conv_lhs => rw [show L = (L - 1) + 1 by omega]
        rw [pow_succ]
        ring
      constructor
      · calc 2 ^ (L + 1 - 1) = 2 * 2 ^ (L - 1) := by rw [Nat.add_sub_cancel, h2L]
          _ ≤ 2 * (n / 2) := by omega
          _ ≤ n := by omega
      · calc n ≤ 2 * (n / 2) + 1 := by omega
          _ < 2 * 2 ^ L := by omega
          _ = 2 ^ (L + 1) := by rw [pow_succ]; ring

/-- `bitLen` brackets every positive `n` between consecutive powers of
two. -/
theorem bitLen_spec (n : Nat) (h : 0 < n) :
    2 ^ (bitLen n - 1) ≤ n ∧ n < 2 ^ bitLen n :=
  bitLenAux_spec n n le_rfl h

/-- Rounding to a double never produces a negative value from
nonnegative input. -/
theorem roundSci_nonneg (N : Nat) (E : Int) (v : Rat)
    (h : roundSciToDouble N E = some v) : 0 ≤ v := by
  simp only [roundSciToDouble] at h
  split at h
  · injection h with h
    rw [← h]
  · split at h
    · exact absurd h (by simp)
    · rw [Option.some.injEq] at h
      rw [← h]
      positivity

/-- Positive integers below `2^53` are exactly representable: the
conversion returns them unchanged. -/
theorem roundSci_exact_small (n : Nat) (h1 : 0 < n) (h2 : n < 2 ^ 53) :
    roundSciToDouble n 0 = some (n : Rat) := by
  obtain ⟨hlo, hhi⟩ := bitLen_spec n h1
  set L := bitLen n with hLdef
  have hL1 : 1 ≤ L := by
    by_contra h
    have h0 : L = 0 := by omega
    rw [h0, pow_zero] at hhi
    omega
  have hL53 : L ≤ 53 := by
    by_contra h
    have h54 : 53 ≤ L - 1 := by omega
    have := Nat.pow_le_pow_right (show 0 < 2 by norm_num) h54
    omega
  have hbig : (2 : Nat) ^ 53 ≤ 2 ^ 1024 - 2 ^ 970 := by
    have hb1 : (2 : Nat) ^ 970 ≤ 2 ^ 1023 := Nat.pow_le_pow_right (by norm_num) (by norm_num)
    have hb2 : (2 : Nat) ^ 1023 + 2 ^ 1023 = 2 ^ 1024 := by
      rw [← two_mul, ← pow_succ']
    have hb3 : (2 : Nat) ^ 53 ≤ 2 ^ 1023 := Nat.pow_le_pow_right (by norm_num) (by norm_num)
    omega
  have hrl : ratLog2 n 1 = (L : Int) - 1 := by
    rw [ratLog2, show bitLen 1 = 1 from rfl]
    have ht1 : (((L : Int) - (1 : Nat)) ).toNat = L - 1 := by omega
    have ht2 : (-((L : Int) - (1 : Nat))).toNat = 0 := by omega
    simp only [ht1, ht2, pow_zero, one_mul, mul_one]
    rw [if_pos hlo]
    omega
  rw [roundSciToDouble]
  have ha : n * 10 ^ (0 : Int).toNat = n := by norm_num
  have hb : (10 : Nat) ^ (-(0 : Int)).toNat = 1 := by norm_num
  simp only [ha, hb, mul_one, one_mul]
  simp only [hrl]
  rw [if_neg (by omega), if_neg (by omega)]
  have hp : max ((L : Int) - 1 - 52) (-1074) = (L : Int) - 53 := by omega
  simp only [hp]
  have hpt1 : ((L : Int) - 53).toNat = 0 := by omega
  have hpt2 : (-((L : Int) - 53)).toNat = 53 - L := by omega
  simp only [hpt1, hpt2, pow_zero, mul_one]
  have hdiv : n * 2 ^ (53 - L) / 1 = n * 2 ^ (53 - L) := Nat.div_one _
  have hmod : n * 2 ^ (53 - L) % 1 = 0 := Nat.mod_one _
  simp only [hdiv, hmod, mul_zero]
  rw [if_neg (by omega), if_pos (by omega)]
  rw [Option.some.injEq]
  have hcast : ((n * 2 ^ (53 - L) : Nat) : Rat)
      = (n : Rat) * (2 : Rat) ^ ((53 - L : Nat)) := by
    push_cast
    ring
  rw [hcast]
  have hzp : (2 : Rat) ^ ((L : Int) - 53) = ((2 : Rat) ^ ((53 - L : Nat)))⁻¹ := by
    rw [show (L : Int) - 53 = -((53 - L : Nat) : Int) by omega, zpow_neg,
      zpow_natCast]
  rw [hzp, mul_assoc, mul_inv_cancel₀ (pow_ne_zero _ (by norm_num)), mul_one]

/-- `parseInt` on the decimal representation of a natural number:
the digits decode to `n`, which is then converted to a double. -/
theorem jsParseIntNum_natToChars (n : Nat) :
    jsParseIntNum (natToChars n)
      = match roundSciToDouble n 0 with
        | none => JSNum.inf true
        | some v => JSNum.val (1 * v) := by
  have hdigits : ∀ c ∈ natToChars n, c.isDigit = true := by
    intro c hc
    obtain ⟨d, _, rfl⟩ := natToChars_mem n c hc
    exact digitChar_isDigit d
  have hdrop : (natToChars n).dropWhile (·.isWhitespace) = natToChars n := by
    cases hn : natToChars n with
    | nil => rfl
    | cons a t =>
      rw [List.dropWhile_cons]
      have ha : a ∈ natToChars n := by
        rw [hn]
        exact List.mem_cons_self a t
      obtain ⟨d, _, rfl⟩ := natToChars_mem n a ha
      rw [digitChar_not_whitespace]
      rfl
  have hsign : readSign (natToChars n) = (false, natToChars n) := by
    cases hn : natToChars n with
    | nil => exact absurd hn (natToChars_ne_nil n)
    | cons a t =>
      have ha : a ∈ natToChars n := by
        rw [hn]
        exact List.mem_cons_self a t
      obtain ⟨d, _, rfl⟩ := natToChars_mem n a ha
      rw [readSign.eq_def]
      split
      · rename_i heq
        exact absurd (List.head_eq_of_cons_eq heq) (digitChar_ne_dash d)
      · rename_i heq
        exact absurd (List.head_eq_of_cons_eq heq) (digitChar_ne_plus d)
      · rfl
  have hne : (natToChars n).isEmpty = false := by
    simp [List.isEmpty_iff, natToChars_ne_nil n]
  rw [jsParseIntNum, hdrop, hsign]
  simp only [takeWhile_isDigit_of_all (natToChars n) hdigits, hne,
    digitsVal_natToChars, Bool.false_eq_true, if_false]
  cases roundSciToDouble n 0 <;> rfl

/-- `parseInt` on `String(n)` for a negative integer: the `-` sign is
consumed and the digit value `|n|` is converted to a double and
negated. -/
theorem jsParseIntNum_negInt (n : Int) (hn : n < 0) :
    jsParseIntNum (intToChars n)
      = match roundSciToDouble n.natAbs 0 with
        | none => JSNum.inf false
        | some v => JSNum.val (-1 * v) := by
  rw [intToChars, if_pos hn]
  have hdigits : ∀ c ∈ natToChars n.natAbs, c.isDigit = true := by
    intro c hc
    obtain ⟨d, _, rfl⟩ := natToChars_mem n.natAbs c hc
    exact digitChar_isDigit d
  rw [jsParseIntNum]
  have hdrop : ('-' :: natToChars n.natAbs).dropWhile (·.isWhitespace)
      = '-' :: natToChars n.natAbs := by
    rw [List.dropWhile_cons]
    rfl
  rw [hdrop]
  have hsign : readSign ('-' :: natToChars n.natAbs)
      = (true, natToChars n.natAbs) := rfl
  rw [hsign]
  have hne : (natToChars n.natAbs).isEmpty = false := by
    simp [List.isEmpty_iff, natToChars_ne_nil n.natAbs]
  simp only [takeWhile_isDigit_of_all _ hdigits, hne, digitsVal_natToChars,
    Bool.false_eq_true, if_false]
  cases roundSciToDouble n.natAbs 0 <;> rfl

/-! ### C9: parseAdditionalMembers safety -/

set_option maxRecDepth 8000 in
/-- Counterexample to C9 as stated: `parseInt` returns a double, so
`parseAdditionalMembers` is not always a nonnegative integer and does
not return every positive integer value exactly.  The 400-nines numeric
string saturates to Infinity (which is neither NaN nor negative and is
returned as-is), and `"12345678901234567890"` loses precision to the
nearest double 12345678901234567168. -/
theorem C9_parse_additional_members_counterexample :
    parseAdditionalMembers (.str (List.replicate 400 '9')) = .inf true
    ∧ parseAdditionalMembers (.str "12345678901234567890".data)
        = .val 12345678901234567168
    ∧ ((12345678901234567168 : Rat) ≠ 12345678901234567890) := by
  refine ⟨by decide, ?_, by norm_num⟩
  have hparse : jsParseIntNum "12345678901234567890".data
      = .val ((if false then (-1 : Rat) else 1)
          * (((6028163525993441 : Nat) : Rat) * (2 : Rat) ^ ((11 : Int)))) := rfl
  rw [parseAdditionalMembers, if_neg (by decide)]
  simp only [jsValToString]
  rw [hparse]
  have hq : ¬ ((if false then (-1 : Rat) else 1)
      * (((6028163525993441 : Nat) : Rat) * (2 : Rat) ^ ((11 : Int))) < 0) := by
    push_neg
    rw [if_neg (by decide), one_mul]
    positivity
  show (if _ < (0 : Rat) then JSNum.val 0 else _) = _
  rw [if_neg hq]
  rw [JSNum.val.injEq]
  norm_num

/-- Every `parseAdditionalMembers` result is 0, positive Infinity, or a
nonnegative finite value. -/
theorem parseAdditionalMembers_cases (v : JSVal) :
    parseAdditionalMembers v = .val 0
    ∨ parseAdditionalMembers v = .inf true
    ∨ ∃ q, 0 ≤ q ∧ parseAdditionalMembers v = .val q := by
  rw [parseAdditionalMembers]
  split
  · exact Or.inl rfl
  · cases jsParseIntNum (jsValToString v) with
    | nan => exact Or.inl rfl
    | inf b =>
      cases b with
      | false => exact Or.inl rfl
      | true => exact Or.inr (Or.inl rfl)
    | val q =>
      by_cases hq : q < 0
      · refine Or.inl ?_
        show (if q < 0 then JSNum.val 0 else JSNum.val q) = JSNum.val 0
        rw [if_pos hq]
      · refine Or.inr (Or.inr ⟨q, by linarith, ?_⟩)
        show (if q < 0 then JSNum.val 0 else JSNum.val q) = JSNum.val q
        rw [if_neg hq]

/-- C9 (amended).  `parseAdditionalMembers` never returns NaN, never a
negative value and never negative Infinity: `null`, `undefined`, the
empty string, non-numeric strings and negative numbers all yield 0, and
a numeric string whose integer value is positive and below `2^53`
(exactly representable as a double) yields exactly that integer.
Larger numeric strings are rounded to the nearest double and may
saturate to (positive) Infinity, which is returned as-is. -/
theorem C9_parse_additional_members :
    (∀ v, parseAdditionalMembers v ≠ .nan
       ∧ parseAdditionalMembers v ≠ .inf false
       ∧ ∀ q, parseAdditionalMembers v = .val q → 0 ≤ q)
    ∧ (parseAdditionalMembers .null = .val 0
       ∧ parseAdditionalMembers .undefined = .val 0
       ∧ parseAdditionalMembers (.str []) = .val 0)
    ∧ (∀ s, jsParseIntNum s = .nan → parseAdditionalMembers (.str s) = .val 0)
    ∧ (∀ n : Int, n < 0 → parseAdditionalMembers (.num n) = .val 0)
    ∧ (∀ n : Nat, 0 < n → n < 2 ^ 53 →
        parseAdditionalMembers (.str (natToChars n)) = .val n) := by
  refine ⟨?_, ⟨rfl, rfl, rfl⟩, ?_, ?_, ?_⟩
  · intro v
    rcases parseAdditionalMembers_cases v with h | h | ⟨q, hq, h⟩
    · rw [h]
      exact ⟨by simp, by simp, fun q' hq' => by
        rw [JSNum.val.injEq] at hq'
        rw [← hq']⟩
    · rw [h]
      exact ⟨by simp, by simp, fun q' hq' => by simp at hq'⟩
    · rw [h]
      exact ⟨by simp, by simp, fun q' hq' => by
        rw [JSNum.val.injEq] at hq'
        rw [← hq']
        exact hq⟩
  · intro s hs
    rw [parseAdditionalMembers]
    split
    · rfl
    · simp only [jsValToString]
      rw [hs]
  · intro n hn
    rw [parseAdditionalMembers, if_neg (by simp)]
    simp only [jsValToString]
    rw [jsParseIntNum_negInt n hn]
    cases hr : roundSciToDouble n.natAbs 0 with
    | none => rfl
    | some v =>
      have hv := roundSci_nonneg n.natAbs 0 v hr
      show (if (-1 : Rat) * v < 0 then JSNum.val 0 else JSNum.val ((-1) * v))
        = JSNum.val 0
      by_cases hneg : (-1 : Rat) * v < 0
      · rw [if_pos hneg]
      · rw [if_neg hneg, JSNum.val.injEq]
        nlinarith
  · intro n hn1 hn2
    rw [parseAdditionalMembers,
      if_neg (by simp [natToChars_ne_nil n]), jsValToString,
      jsParseIntNum_natToChars, roundSci_exact_small n hn1 hn2]
    show (if (1 : Rat) * n < 0 then JSNum.val 0 else JSNum.val (1 * n))
      = JSNum.val n
    rw [if_neg (by push_neg; positivity), JSNum.val.injEq, one_mul]

/-- Witness for C9: `"3"` parses to 3; `"abc"`, `null` and the number
`-5` all yield 0. -/
theorem C9_parse_additional_members_witness :
    parseAdditionalMembers (.str "3".data) = .val 3
    ∧ parseAdditionalMembers (.str "abc".data) = .val 0
    ∧ parseAdditionalMembers .null = .val 0
    ∧ parseAdditionalMembers (.num (-5)) = .val 0 := by
  refine ⟨?_, C9_parse_additional_members.2.2.1 "abc".data (by decide),
    C9_parse_additional_members.2.1.1,
    C9_parse_additional_members.2.2.2.1 (-5) (by decide)⟩
  have h := C9_parse_additional_members.2.2.2.2 3 (by decide) (by decide)
  rw [show natToChars 3 = "3".data by rw [natToChars]; rfl] at h
  rw [show ((3 : Nat) : Rat) = 3 by norm_num] at h
  exact h

/-! ### C10: parsePrice -/

/-- The token structure of the longest `StrDecimalLiteral` prefix read
by `parseFloat`: sign, `Infinity` literal, integer digits, fraction
digits, exponent. -/
structure FloatTokens where
  neg : Bool
  isInf : Bool
  ok : Bool
  ip : List Char
  fp : List Char
  exp : Int
  deriving DecidableEq, Repr

/-- Tokenize a string the way JS `parseFloat` scans it: skip leading
whitespace; optional sign; the literal `Infinity`; otherwise integer
digits, an optional `'.'` with fraction digits (at least one digit
required overall, else NaN), and an optional exponent `e`/`E` with sign
and at least one digit (otherwise the exponent part is not consumed). -/
def tokenizeFloat (s : JSString) : FloatTokens :=
  let cs := s.dropWhile (·.isWhitespace)
  let sr := readSign cs
  if "Infinity".data.isPrefixOf sr.2 then
    { neg := sr.1, isInf := true, ok := true, ip := [], fp := [], exp := 0 }
  else
    let ip := sr.2.takeWhile (·.isDigit)
    let rest1 := sr.2.dropWhile (·.isDigit)
    let fpRest : List Char × List Char :=
      match rest1 with
      | '.' :: r => (r.takeWhile (·.isDigit), r.dropWhile (·.isDigit))
      | _ => ([], rest1)
    let exp : Int :=
      match fpRest.2 with
      | c :: r =>
        if c = 'e' ∨ c = 'E' then
          let esr := readSign r
          let ed := esr.2.takeWhile (·.isDigit)
          if ed.isEmpty then 0
          else (if esr.1 then -1 else 1) * (digitsVal ed : Int)
        else 0
      | [] => 0
    { neg := sr.1, isInf := false, ok := !(ip.isEmpty && fpRest.1.isEmpty)
      ip := ip, fp := fpRest.1, exp := exp }

/-- The scanned literal's magnitude reaches the binary64 overflow
threshold: `N · 10^E ≥ 2^1024 - 2^970` (stated with denominators
cleared), in which case `parseFloat` returns a signed Infinity
(`parseFloat("1e999") === Infinity`). -/
def overflowsDouble (N : Nat) (E : Int) : Prop :=
  (2 ^ 1024 - 2 ^ 970) * 10 ^ (-E).toNat ≤ N * 10 ^ E.toNat

/-- JS `parseFloat`: the mathematical value of the scanned literal is
`digits(ip ++ fp) · 10^(exp - |fp|)`, converted once to a binary64
double — so out-of-range magnitudes become a signed Infinity and
in-range values are rounded to 53 significant bits. -/
def jsParseFloat (s : JSString) : JSNum :=
  let t := tokenizeFloat s
  if t.isInf then .inf (!t.neg)
  else if !t.ok then .nan
  else
    match roundSciToDouble (digitsVal (t.ip ++ t.fp)) (t.exp - t.fp.length) with
    | none => .inf (!t.neg)
    | some v => .val ((if t.neg then (-1 : Rat) else 1) * v)

/-- The conversion overflows to Infinity exactly on nonzero magnitudes
at or above the `2^1024 - 2^970` threshold. -/
theorem roundSci_none_iff (N : Nat) (E : Int) :
    roundSciToDouble N E = none
      ↔ (N * 10 ^ E.toNat ≠ 0 ∧ overflowsDouble N E) := by
  rw [roundSciToDouble, overflowsDouble]
  split
  · rename_i h
    simp [h]
  · split
    · rename_i h1 h2
      simp [h1, h2]
    · rename_i h1 h2
      simp [h1, h2]

/-- The cleaning pipeline of `parsePrice`: strip currency symbols
(`$€£¥`), commas and whitespace, then trim. -/
def cleanPrice (s : JSString) : JSString :=
  trimStr (((s.filter fun c => !(c == '$' || c == '€' || c == '£' || c == '¥')).filter
    fun c => !(c == ',')).filter fun c => !c.isWhitespace)

/-- `parsePrice`, translated from src/lib/parse-order.js lines 609-627:
falsy input (absent or empty string) → 0; otherwise clean and
`parseFloat`; NaN → 0 (with a console warning); any other result is
returned as-is. -/
def parsePrice (priceStr : Option JSString) : JSNum :=
  match priceStr with
  | none => .val 0
  | some s =>
    if s.isEmpty then .val 0
    else
      match jsParseFloat (cleanPrice s) with
      | .nan => .val 0
      | r => r

set_option maxRecDepth 8000 in
/-- Counterexample to C10 as stated: the input string `"Infinity"`
survives cleaning and `parseFloat` recognizes the `Infinity` literal;
likewise `"1e999"` exceeds the binary64 overflow threshold. In both
cases `parsePrice` returns a non-finite value. -/
theorem C10_parse_price_counterexample :
    parsePrice (some "Infinity".data) = .inf true
    ∧ parsePrice (some "1e999".data) = .inf true := by
  constructor
  · decide
  · decide

/-- `parseFloat` returns an infinity only for the `Infinity` literal or
for a scanned magnitude at or above the binary64 overflow threshold. -/
theorem jsParseFloat_inf_characterization (s : JSString) (b : Bool)
    (h : jsParseFloat s = .inf b) :
    (tokenizeFloat s).isInf = true
    ∨ overflowsDouble (digitsVal ((tokenizeFloat s).ip ++ (tokenizeFloat s).fp))
        ((tokenizeFloat s).exp - (tokenizeFloat s).fp.length) := by
  simp only [jsParseFloat] at h
  split at h
  · left
    assumption
  · split at h
    · exact absurd h (by simp)
    · cases hr : roundSciToDouble
          (digitsVal ((tokenizeFloat s).ip ++ (tokenizeFloat s).fp))
          ((tokenizeFloat s).exp - (tokenizeFloat s).fp.length) with
      | none => exact Or.inr ((roundSci_none_iff _ _).mp hr).2
      | some v =>
        rw [hr] at h
        exact absurd h (by simp)

/-- C10 (amended).  `parsePrice` is total, never NaN, and maps every
string that is unparseable after cleaning to 0; the result is finite
except when the cleaned string denotes the `Infinity` literal (possibly
signed) or a magnitude at or above the binary64 overflow threshold
`2^1024 - 2^970` (e.g. `"1e999"`), in which case the resulting infinity
is returned as-is. -/
theorem C10_parse_price (s? : Option JSString) :
    parsePrice s? ≠ .nan
    ∧ (∀ s, s? = some s → jsParseFloat (cleanPrice s) = .nan →
        parsePrice s? = .val 0)
    ∧ (∀ b, parsePrice s? = .inf b →
        ∃ s, s? = some s
          ∧ ((tokenizeFloat (cleanPrice s)).isInf = true
             ∨ overflowsDouble
                 (digitsVal ((tokenizeFloat (cleanPrice s)).ip
                   ++ (tokenizeFloat (cleanPrice s)).fp))
                 ((tokenizeFloat (cleanPrice s)).exp
                   - (tokenizeFloat (cleanPrice s)).fp.length))) := by
  match s? with
  | none => exact ⟨by rw [parsePrice]; simp, fun s hs => by simp at hs,
      fun b hb => by rw [parsePrice] at hb; simp at hb⟩
  | some s =>
    refine ⟨?_, ?_, ?_⟩
    · rw [parsePrice]
      split
      · simp
      · cases h : jsParseFloat (cleanPrice s) with
        | nan => simp [h]
        | inf b => simp [h]
        | val q => simp [h]
    · intro s' hs' hnan
      rw [Option.some.injEq] at hs'
      subst hs'
      rw [parsePrice]
      split
      · rfl
      · rw [hnan]
    · intro b hb
      rw [parsePrice] at hb
      refine ⟨s, rfl, ?_⟩
      have hinf : jsParseFloat (cleanPrice s) = .inf b := by
        split at hb
        · exact absurd hb (by simp)
        · cases h : jsParseFloat (cleanPrice s) with
          | nan => rw [h] at hb; exact absurd hb (by simp)
          | inf b' => rw [h] at hb; exact hb
          | val q => rw [h] at hb; exact absurd hb (by simp)
      exact jsParseFloat_inf_characterization (cleanPrice s) b hinf

set_option maxRecDepth 8000 in
/-- Witness for C10: the documented example `"$ 1,750.00"` cleans to
`"1750.00"`, whose value 1750 is exactly representable in binary64
(`1750 = 7696581394432000 · 2⁻⁴²`), so `parsePrice` returns exactly
1750; in particular it is not NaN. -/
theorem C10_parse_price_witness :
    parsePrice (some "$ 1,750.00".data) = .val 1750
    ∧ parsePrice (some "$ 1,750.00".data) ≠ .nan := by
  refine ⟨?_, (C10_parse_price (some "$ 1,750.00".data)).1⟩
  have hclean : cleanPrice "$ 1,750.00".data = "1750.00".data := by decide
  have hfloat : jsParseFloat "1750.00".data
      = .val ((1 : Rat)
          * (((7696581394432000 : Nat) : Rat) * (2 : Rat) ^ ((-42 : Int)))) := rfl
  have hq : (1 : Rat)
      * (((7696581394432000 : Nat) : Rat) * (2 : Rat) ^ ((-42 : Int))) = 1750 := by
    rw [show ((-42 : Int)) = -((42 : Nat) : Int) by norm_num, zpow_neg,
      zpow_natCast]
    push_cast
    rw [one_mul, mul_inv_eq_iff_eq_mul₀ (by positivity)]
    norm_num
  rw [parsePrice, if_neg (by decide), hclean, hfloat, hq]

/-! ## Stripe payment lookup (findPaymentByEmail in
     src/lib/stripe-lookup.js, lines 25-87) -/

/-- JS `a || b` on possibly-absent strings: the empty string is falsy
and falls through to `b`. -/
def orFalsy (a b : Option JSString) : Option JSString :=
  match a with
  | some s => if s.isEmpty then b else some s
  | none => b

/-- A Stripe coupon object (`discountInfo.discount.coupon`). -/
structure StripeCoupon where
  name : Option JSString
  id : JSString
  percentOff : Option Rat
  amountOff : Option Int
  deriving Repr

/-- One entry of `session.total_details.breakdown.discounts`. -/
structure SessionDiscount where
  amount : Option Int
  coupon : Option StripeCoupon
  deriving Repr

/-- A checkout-session record as read by the lookup.  `discounts` is
`total_details?.breakdown?.discounts` (`[]` when the chain is absent). -/
structure SessionRec where
  cdEmail : Option JSString
  customerEmail : Option JSString
  amountTotal : Option Int
  amountSubtotal : Option Int
  discounts : List SessionDiscount
  deriving Repr

/-- A charge record as read by the fallback search. -/
structure ChargeRec where
  bdEmail : Option JSString
  receiptEmail : Option JSString
  amount : Option Int
  deriving Repr

/-- `session.customer_details?.email || session.customer_email`. -/
def sessionEmailOf (s : SessionRec) : Option JSString :=
  orFalsy s.cdEmail s.customerEmail

/-- `charge.billing_details?.email || charge.receipt_email`. -/
def chargeEmailOf (c : ChargeRec) : Option JSString :=
  orFalsy c.bdEmail c.receiptEmail

/-- `candidate && candidate.toLowerCase() === email.toLowerCase()`. -/
def emailMatches (candidate : Option JSString) (email : JSString) : Bool :=
  match candidate with
  | some c => !c.isEmpty && (toLowerStr c == toLowerStr email)
  | none => false

/-- `extractSessionDetails`, translated from src/lib/stripe-lookup.js
lines 92-130 (the description/booking-ref enrichment steps live in their
own inner try/catch blocks and set only audit fields): amounts from the
session, `discountAmount = subtotal - amount_total` when positive,
overridden by the first breakdown discount's amount when truthy;
discount type and percent-off from the coupon. -/
def extractSessionDetails (s : SessionRec) : StripePayment :=
  let amountPaid := s.amountTotal.getD 0
  let subtotal := s.amountSubtotal.getD 0
  let discountAmount0 : Int :=
    if subtotal > amountPaid then subtotal - amountPaid else 0
  match s.discounts with
  | [] =>
    { found := true, amountPaid := amountPaid, subtotal := subtotal
      discountAmount := discountAmount0, discountType := none, percentOff := 0 }
  | d :: _ =>
    let discountAmount : Int :=
      match d.amount with
      | some a => if a ≠ 0 then a else discountAmount0
      | none => discountAmount0
    let typeAndPercent : Option DiscountType × Rat :=
      match d.coupon with
      | none => (none, 0)
      | some coupon =>
        match coupon.percentOff with
        | some po =>
          if po ≠ 0 then (some .percent, po)
          else
            match coupon.amountOff with
            | some ao => if ao ≠ 0 then (some .fixed, 0) else (none, 0)
            | none => (none, 0)
        | none =>
          match coupon.amountOff with
          | some ao => if ao ≠ 0 then (some .fixed, 0) else (none, 0)
          | none => (none, 0)
    { found := true, amountPaid := amountPaid, subtotal := subtotal
      discountAmount := discountAmount
      discountType := typeAndPercent.1, percentOff := typeAndPercent.2 }

/-- `extractChargeDetails`, translated from src/lib/stripe-lookup.js
lines 189-219: only the final amount is known; no discount structure. -/
def extractChargeDetails (c : ChargeRec) : StripePayment :=
  { found := true, amountPaid := c.amount.getD 0, subtotal := c.amount.getD 0
    discountAmount := 0, discountType := none, percentOff := 0 }

/-- The value returned by `findPaymentByEmail`: `{ found: false }` when
nothing matched, `{ found: false, error }` when the processor call
threw (the whole body runs under a try/catch), or the extracted payment
details with `found: true`. -/
inductive LookupResult where
  | noMatch
  | lookupError (msg : JSString)
  | foundPayment (p : StripePayment)
  deriving Repr

/-- The `found` flag of a lookup result. -/
def LookupResult.found : LookupResult → Bool
  | .foundPayment _ => true
  | _ => false

/-- The outcomes of the two Stripe API calls the lookup makes
(`checkout.sessions.list`, `charges.list`); `Except.error` models the
call throwing. -/
structure StripeEnv where
  sessionsCall : Except JSString (List SessionRec)
  chargesCall : Except JSString (List ChargeRec)

/-- `findPaymentByEmail`, translated from src/lib/stripe-lookup.js:
search sessions first (first email match wins), fall back to charges,
return `{found: false}` on no match; the surrounding try/catch converts
any thrown error into `{found: false, error}`.  The function is total by
construction — every branch produces a `LookupResult`. -/
def findPaymentByEmail (env : StripeEnv) (email : JSString) : LookupResult :=
  match env.sessionsCall with
  | .error e => .lookupError e
  | .ok sessions =>
    match sessions.find? (fun s => emailMatches (sessionEmailOf s) email) with
    | some s => .foundPayment (extractSessionDetails s)
    | none =>
      match env.chargesCall with
      | .error e => .lookupError e
      | .ok charges =>
        match charges.find? (fun c => emailMatches (chargeEmailOf c) email) with
        | some c => .foundPayment (extractChargeDetails c)
        | none => .noMatch

/-! ### C6: the lookup never throws and always yields a decidable
     found flag -/

/-- C6.  `findPaymentByEmail` is a total function into `LookupResult`
(never throws — the model has no error channel left open), and its
`found` flag is a `Bool`.  It reports `found = false` whenever the
session call fails, whenever no session matches and the charge call
fails, and whenever neither list contains an email match; conversely
`found = true` only when an actual matching session or charge exists. -/
theorem C6_lookup_sentinel (env : StripeEnv) (email : JSString) :
    (∀ e, env.sessionsCall = .error e →
      (findPaymentByEmail env email).found = false)
    ∧ (∀ sessions e, env.sessionsCall = .ok sessions →
        (∀ s ∈ sessions, emailMatches (sessionEmailOf s) email = false) →
        env.chargesCall = .error e →
        (findPaymentByEmail env email).found = false)
    ∧ (∀ sessions charges, env.sessionsCall = .ok sessions →
        env.chargesCall = .ok charges →
        (∀ s ∈ sessions, emailMatches (sessionEmailOf s) email = false) →
        (∀ c ∈ charges, emailMatches (chargeEmailOf c) email = false) →
        (findPaymentByEmail env email).found = false)
    ∧ ((findPaymentByEmail env email).found = true →
        (∃ sessions, env.sessionsCall = .ok sessions
          ∧ ∃ s ∈ sessions, emailMatches (sessionEmailOf s) email = true)
        ∨ (∃ charges, env.chargesCall = .ok charges
          ∧ ∃ c ∈ charges, emailMatches (chargeEmailOf c) email = true)) := by
  refine ⟨?_, ?_, ?_, ?_⟩
  · intro e he
    simp only [findPaymentByEmail, he, LookupResult.found]
  · intro sessions e hs hnone hc
    have hfind : sessions.find? (fun s => emailMatches (sessionEmailOf s) email)
        = none := List.find?_eq_none.mpr fun s hmem => by simp [hnone s hmem]
    simp only [findPaymentByEmail, hs, hfind, hc, LookupResult.found]
  · intro sessions charges hs hc hsnone hcnone
    have hfind : sessions.find? (fun s => emailMatches (sessionEmailOf s) email)
        = none := List.find?_eq_none.mpr fun s hmem => by simp [hsnone s hmem]
    have hcfind : charges.find? (fun c => emailMatches (chargeEmailOf c) email)
        = none := List.find?_eq_none.mpr fun c hmem => by simp [hcnone c hmem]
    simp only [findPaymentByEmail, hs, hfind, hc, hcfind, LookupResult.found]
  · intro hfound
    match hs : env.sessionsCall with
    | .error e =>
      simp [findPaymentByEmail, hs, LookupResult.found] at hfound
    | .ok sessions =>
      simp only [findPaymentByEmail, hs] at hfound
      match hfind : sessions.find? (fun s => emailMatches (sessionEmailOf s) email) with
      | some s =>
        have hp := List.find?_some hfind
        exact Or.inl ⟨sessions, rfl,
          s, List.mem_of_find?_eq_some hfind, by simpa using hp⟩
      | none =>
        simp only [hfind] at hfound
        match hc : env.chargesCall with
        | .error e =>
          simp [hc, LookupResult.found] at hfound
        | .ok charges =>
          simp only [hc] at hfound
          match hcfind : charges.find? (fun c => emailMatches (chargeEmailOf c) email) with
          | some c =>
            have hp := List.find?_some hcfind
            exact Or.inr ⟨charges, rfl,
              c, List.mem_of_find?_eq_some hcfind, by simpa using hp⟩
          | none =>
            simp [hcfind, LookupResult.found] at hfound

/-- Witness for C6: a concrete environment where the processor call
itself fails yields `found = false`, and one with no matching
transaction also yields `found = false`. -/
theorem C6_lookup_sentinel_witness :
    (findPaymentByEmail
      { sessionsCall := .error "api key not set".data, chargesCall := .ok [] }
      "a@b.co".data).found = false
    ∧ (findPaymentByEmail
      { sessionsCall := .ok [], chargesCall := .ok [] }
      "a@b.co".data).found = false := by
  constructor
  · exact (C6_lookup_sentinel
      { sessionsCall := .error "api key not set".data, chargesCall := .ok [] }
      "a@b.co".data).1 "api key not set".data rfl
  · exact (C6_lookup_sentinel
      { sessionsCall := .ok [], chargesCall := .ok [] }
      "a@b.co".data).2.2.1 [] [] rfl rfl (by simp) (by simp)

/-! ## Calendar dates and the NET-30 due date
     (handlePaylater in src/unnamed/part_008 lines 727-737 and
     src/api/ycbm-qb.js lines 177-187) -/

/-- A calendar date (proleptic Gregorian, as JS `Date` uses). -/
structure Date where
  year : Int
  month : Nat
  day : Nat
  deriving DecidableEq, Repr

/-- Gregorian leap year. -/
def isLeapYear (y : Int) : Bool :=
  (y % 4 == 0 && y % 100 != 0) || y % 400 == 0

/-- Days in a month (months are 1-based; out-of-range months never arise
for valid dates). -/
def daysInMonth (y : Int) (m : Nat) : Nat :=
  match m with
  | 2 => if isLeapYear y then 29 else 28
  | 4 => 30
  | 6 => 30
  | 9 => 30
  | 11 => 30
  | _ => 31

theorem daysInMonth_pos (y : Int) (m : Nat) : 0 < daysInMonth y m := by
  rw [daysInMonth.eq_def]
  split
  · split <;> norm_num
  all_goals norm_num

/-- A structurally valid date. -/
def ValidDate (dt : Date) : Prop :=
  1 ≤ dt.month ∧ dt.month ≤ 12 ∧ 1 ≤ dt.day ∧ dt.day ≤ daysInMonth dt.year dt.month

instance (dt : Date) : Decidable (ValidDate dt) := by
  rw [ValidDate]
  infer_instance

/-- Normalize an overflowed day-of-month the way JS `Date.setDate`
does: roll excess days into the following months/years. -/
def normalizeDate (y : Int) (m : Nat) (d : Nat) : Date :=
  if d ≤ daysInMonth y m then ⟨y, m, d⟩
  else if m < 12 then normalizeDate y (m + 1) (d - daysInMonth y m)
  else normalizeDate (y + 1) 1 (d - daysInMonth y 12)
termination_by d
decreasing_by
  · have := daysInMonth_pos y m
    omega
  · have := daysInMonth_pos y 12
    omega

/-- JS `dt.setDate(dt.getDate() + k)` for `k ≥ 0`. -/
def jsSetDatePlus (dt : Date) (k : Nat) : Date :=
  normalizeDate dt.year dt.month (dt.day + k)

/-- The successor day in the calendar. -/
def nextDay (dt : Date) : Date :=
  if dt.day < daysInMonth dt.year dt.month then ⟨dt.year, dt.month, dt.day + 1⟩
  else if dt.month < 12 then ⟨dt.year, dt.month + 1, 1⟩
  else ⟨dt.year + 1, 1, 1⟩

/-- The due-date computation shared by `handlePaylater` and
`handlePartialPayment`: `const dueDate = new Date();
dueDate.setDate(dueDate.getDate() + 30)` — thirty days after the date
the webhook is processed. -/
def handlePaylaterDueDate (today : Date) : Date :=
  jsSetDatePlus today 30

theorem normalizeDate_of_le (y : Int) (m : Nat) (d : Nat)
    (h : d ≤ daysInMonth y m) : normalizeDate y m d = ⟨y, m, d⟩ := by
  rw [normalizeDate, if_pos h]

/-- One-step unrolling: normalizing `d + 1` is the successor of
normalizing `d` (for a positive day in a real month). -/
theorem normalizeDate_succ (d : Nat) : ∀ (y : Int) (m : Nat),
    1 ≤ m → m ≤ 12 → 1 ≤ d →
    normalizeDate y m (d + 1) = nextDay (normalizeDate y m d) := by
  induction d using Nat.strong_induction_on with
  | _ d ih =>
    intro y m hm1 hm12 hd1
    by_cases hle : d + 1 ≤ daysInMonth y m
    · rw [normalizeDate_of_le y m (d + 1) hle,
        normalizeDate_of_le y m d (by omega), nextDay]
      rw [if_pos (by show d < daysInMonth y m; omega)]
    · by_cases heq : d ≤ daysInMonth y m
      · have hd : d = daysInMonth y m := by omega
        rw [normalizeDate_of_le y m d heq, nextDay]
        rw [if_neg (by show ¬ d < daysInMonth y m; omega)]
        by_cases hm : m < 12
        · rw [if_pos hm]
          rw [normalizeDate, if_neg hle, if_pos hm]
          have : d + 1 - daysInMonth y m = 1 := by omega
          rw [this,
            normalizeDate_of_le y (m + 1) 1 (daysInMonth_pos y (m + 1))]
        · rw [if_neg hm]
          have hm' : m = 12 := by omega
          rw [normalizeDate, if_neg hle, if_neg hm]
          subst hm'
          have : d + 1 - daysInMonth y 12 = 1 := by omega
          rw [this,
            normalizeDate_of_le (y + 1) 1 1 (daysInMonth_pos (y + 1) 1)]
      · have hdim := daysInMonth_pos y m
        by_cases hm : m < 12
        · rw [normalizeDate, if_neg hle, if_pos hm]
          rw [show normalizeDate y m d
              = normalizeDate y (m + 1) (d - daysInMonth y m) by
            rw [normalizeDate, if_neg (by omega), if_pos hm]]
          have harith : d + 1 - daysInMonth y m = (d - daysInMonth y m) + 1 := by
            omega
          rw [harith]
          exact ih (d - daysInMonth y m) (by omega) y (m + 1)
            (by omega) (by omega) (by omega)
        · have hm' : m = 12 := by omega
          subst hm'
          rw [normalizeDate, if_neg hle, if_neg hm]
          rw [show normalizeDate y 12 d
              = normalizeDate (y + 1) 1 (d - daysInMonth y 12) by
            rw [normalizeDate, if_neg (by omega), if_neg hm]]
          have hdim12 := daysInMonth_pos y 12
          have harith : d + 1 - daysInMonth y 12 = (d - daysInMonth y 12) + 1 := by
            omega
          rw [harith]
          exact ih (d - daysInMonth y 12) (by omega) (y + 1) 1
            (by omega) (by omega) (by omega)

/-- `setDate(getDate() + k)` advances a valid date by exactly `k`
calendar days. -/
theorem jsSetDatePlus_eq_iterate (dt : Date) (hv : ValidDate dt) :
    ∀ k : Nat, jsSetDatePlus dt k = nextDay^[k] dt := by
  obtain ⟨hm1, hm12, hd1, hdle⟩ := hv
  intro k
  induction k with
  | zero =>
    rw [jsSetDatePlus, Function.iterate_zero, id]
    exact normalizeDate_of_le dt.year dt.month dt.day hdle
  | succ k ihk =>
    rw [jsSetDatePlus]
    rw [show dt.day + (k + 1) = (dt.day + k) + 1 by omega]
    rw [normalizeDate_succ (dt.day + k) dt.year dt.month hm1 hm12 (by omega)]
    rw [Function.iterate_succ_apply']
    rw [← ihk, jsSetDatePlus]

/-! ### C8: the NET-30 due date -/

set_option maxRecDepth 4000 in
/-- Counterexample to C8 as stated: a booking made on 2026-01-01 whose
webhook is processed on 2026-01-02 gets due date 2026-02-01 — thirty
days after the processing date — while the booking date plus 30 days is
2026-01-31. -/
theorem C8_due_date_counterexample :
    handlePaylaterDueDate ⟨2026, 1, 2⟩ = ⟨2026, 2, 1⟩
    ∧ nextDay^[30] ⟨2026, 1, 1⟩ = ⟨2026, 1, 31⟩
    ∧ handlePaylaterDueDate ⟨2026, 1, 2⟩ ≠ nextDay^[30] (⟨2026, 1, 1⟩ : Date) := by
  have h1 : handlePaylaterDueDate ⟨2026, 1, 2⟩ = ⟨2026, 2, 1⟩ := by
    rw [handlePaylaterDueDate, jsSetDatePlus]
    show normalizeDate 2026 1 32 = _
    rw [normalizeDate]
    rw [if_neg (by norm_num [daysInMonth]), if_pos (by norm_num)]
    rw [show (32 : Nat) - daysInMonth 2026 1 = 1 by norm_num [daysInMonth]]
    exact normalizeDate_of_le 2026 2 1 (daysInMonth_pos 2026 2)
  have h2 : nextDay^[30] (⟨2026, 1, 1⟩ : Date) = ⟨2026, 1, 31⟩ := by decide
  exact ⟨h1, h2, by rw [h1, h2]; decide⟩

/-- C8 (amended).  For every PAYLATER (and PARTIAL_PAYMENT) booking the
invoice due date is exactly 30 calendar days after the date the webhook
is processed (`new Date()` at handling time) — NET 30 from invoice
creation.  It coincides with the booking date plus 30 days exactly when
the webhook is processed on the booking's own date. -/
theorem C8_due_date_net30 (today bookingDate : Date) (hv : ValidDate today) :
    handlePaylaterDueDate today = nextDay^[30] today
    ∧ (bookingDate = today →
        handlePaylaterDueDate today = nextDay^[30] bookingDate) := by
  refine ⟨jsSetDatePlus_eq_iterate today hv 30, fun hb => ?_⟩
  rw [hb]
  exact jsSetDatePlus_eq_iterate today hv 30

/-- Witness for C8: processing on 2026-01-02 yields due date 2026-02-01,
thirty days later. -/
theorem C8_due_date_net30_witness :
    handlePaylaterDueDate ⟨2026, 1, 2⟩ = nextDay^[30] (⟨2026, 1, 2⟩ : Date) :=
  (C8_due_date_net30 ⟨2026, 1, 2⟩ ⟨2026, 1, 2⟩ (by decide)).1

end BaslerWebhooks
